import Mathlib

/-!
Verification development for the Alpha3 rank-correlation backtest
(`Task_3/Task3.ipynb`).

The notebook's algorithmic core is embedded shallowly:

* prices, volumes and P&L values are modelled as rationals (the floats of
  the source, with exact arithmetic);
* a float NaN is modelled as `none` in `Option`;
* `pandas.Series.rank()` (default method `average`) and
  `pandas.Series.corr()` (Pearson) are embedded as the mathematical
  functions they compute, with the NaN-on-zero-variance behaviour of
  `corr` made explicit;
* `numpy` `mean`/`std` are population mean / population standard
  deviation, returning NaN (`none`) on an empty array;
* a Python exception is modelled as `Except.error`.
-/

/-! ## Rank and correlation primitives (`Alpha3Strategy.next`) -/

/-- `pandas.Series.rank()` with the default `average` method: the rank of
`x` within `l` is the number of elements strictly below `x` plus the
average of the 1-based positions the ties would occupy. -/
def rankAvg (l : List ℚ) (x : ℚ) : ℚ :=
  (l.countP (fun y => decide (y < x)) : ℚ) +
    ((l.countP (fun y => decide (y = x)) : ℚ) + 1) / 2

/-- `pd.Series(v).rank()`: every element of `l` replaced by its average rank. -/
def ranks (l : List ℚ) : List ℚ :=
  l.map (rankAvg l)

/-- Arithmetic mean of a list (0 on the empty list, by rational junk division). -/
def mean (l : List ℚ) : ℚ :=
  l.sum / l.length

/-- Each element minus the list mean. -/
def demean (l : List ℚ) : List ℚ :=
  l.map (fun x => x - mean l)

/-- Dot product of two lists (truncating at the shorter one). -/
def dot (xs ys : List ℚ) : ℚ :=
  ((xs.zip ys).map (fun p => p.1 * p.2)).sum

/-- Centered second-moment sum `Σ (x-x̄)(y-ȳ)` used by Pearson correlation. -/
def sxy (xs ys : List ℚ) : ℚ :=
  dot (demean xs) (demean ys)

/-- The value `pandas.Series.corr` computes when it is defined:
`Σ(x-x̄)(y-ȳ) / √(Σ(x-x̄)² · Σ(y-ȳ)²)` (the sample-size factors of the
sample covariance and sample standard deviations cancel). -/
noncomputable def pearson (xs ys : List ℚ) : ℝ :=
  (sxy xs ys : ℝ) / Real.sqrt ((sxy xs xs : ℝ) * (sxy ys ys : ℝ))

/-- `pandas.Series.corr`: Pearson correlation, NaN (`none`) when either
series has zero centered variation (this also covers empty and length-one
series, whose sample standard deviation is 0 resp. 0/0). -/
noncomputable def seriesCorr (xs ys : List ℚ) : Option ℝ :=
  if sxy xs xs = 0 ∨ sxy ys ys = 0 then none else some (pearson xs ys)

/-- The body of `Alpha3Strategy.next` on one pair of window arrays:
rank both windows, correlate the ranks, negate:
`alpha_signal = -1 * open_rank.corr(volume_rank)`. -/
noncomputable def signalOnWindow (opens volumes : List ℚ) : Option ℝ :=
  (seriesCorr (ranks opens) (ranks volumes)).map (fun c => -1 * c)

/-! ## Instrument series and window extraction -/

/-- One instrument's bar series: aligned per-bar open prices and volumes
(the only two bar fields `Alpha3Strategy.next` reads). -/
structure InstrumentSeries where
  opens : List ℚ
  volumes : List ℚ

/-- The window the source builds:
`np.array([self.data.open[-i] for i in range(self.params.lookback_period)])`.
In backtrader `line[-i]` is the value `i` bars before the current bar `t`,
so the window is `[l t, l (t-1), ..., l (t-L+1)]` (current bar first). -/
def codeWindow (l : List ℚ) (t L : ℕ) : List ℚ :=
  (List.range L).map (fun i => l.getD (t - i) 0)

/-- `Alpha3Strategy.next`'s alpha signal at bar `t` with lookback `L`. -/
noncomputable def alpha_signal (s : InstrumentSeries) (t L : ℕ) : Option ℝ :=
  signalOnWindow (codeWindow s.opens t L) (codeWindow s.volumes t L)

/-- The most recent `L` values of `l` ending at (and including) index `t`,
in chronological order. -/
def recentWindow (l : List ℚ) (t L : ℕ) : List ℚ :=
  (l.take (t + 1)).drop (t + 1 - L)

/-- A second definition following the spec's words, for comparison with
`alpha_signal`: rank the most recent `L` open values and the most recent
`L` volume values (window ending at and including the current bar),
Pearson-correlate the two rank sequences, and negate. -/
noncomputable def specAlphaSignal (s : InstrumentSeries) (t L : ℕ) : Option ℝ :=
  signalOnWindow (recentWindow s.opens t L) (recentWindow s.volumes t L)

/-! ## Position state machine (`Alpha3Strategy.next`, trading rules) -/

/-- Order action emitted on one bar. -/
inductive TradeAction where
  | buy
  | sell
  | hold
deriving DecidableEq, Repr

/-- Position state: the strategy is long-only, `self.position` is either
empty (flat) or a single long position. -/
inductive PosState where
  | flat
  | long
deriving DecidableEq, Repr

open Classical in
/-- The trading rules of `Alpha3Strategy.next`:
`if alpha_signal < -0.5: if not self.position: self.buy()` followed by
`if alpha_signal > 0.5: if self.position: self.sell()`.
A NaN signal (`none`) compares false in Python on both tests, so it always
falls through to no action (hold); the two conditions are mutually
exclusive, so sequencing them equals the if/else-if below. -/
noncomputable def nextAction (sig : Option ℝ) (p : PosState) : TradeAction :=
  match sig with
  | none => TradeAction.hold
  | some x =>
      if x < -(1/2) ∧ p = PosState.flat then TradeAction.buy
      else if 1/2 < x ∧ p = PosState.long then TradeAction.sell
      else TradeAction.hold

/-- Position after the bar's order is filled (a market order placed at bar
`t` is executed by the broker before `next` runs on bar `t+1`). -/
noncomputable def stepPos (sig : Option ℝ) (p : PosState) : PosState :=
  match nextAction sig p with
  | TradeAction.buy => PosState.long
  | TradeAction.sell => PosState.flat
  | TradeAction.hold => p

/-- Position trace of a simulation run driven by a stream of per-bar
signals, starting flat. -/
noncomputable def runPos (sigs : ℕ → Option ℝ) : ℕ → PosState
  | 0 => PosState.flat
  | t + 1 => stepPos (sigs t) (runPos sigs t)

/-- Action trace of a simulation run driven by a stream of per-bar signals. -/
noncomputable def runAct (sigs : ℕ → Option ℝ) (t : ℕ) : TradeAction :=
  nextAction (sigs t) (runPos sigs t)

/-- A concrete signal stream: strong buy signal, strong sell signal,
strong buy signal, then NaN forever. -/
noncomputable def exSigs : ℕ → Option ℝ := fun t =>
  if t = 0 then some (-1) else if t = 1 then some 1 else if t = 2 then some (-1) else none

/-- Modelled from the spec: the per-bar dispatch of the engine around
`Alpha3Strategy.next`. The backtrader event loop that calls `next` is not
part of the notebook; per spec §4.1, when `current_index` has fewer than
`L` bars of history (including itself) "the signal is undefined (treated
as no signal — no action taken)", otherwise the signal of
`Alpha3Strategy.next` is computed. -/
noncomputable def engineSignal (s : InstrumentSeries) (t L : ℕ) : Option ℝ :=
  if t + 1 < L then none else alpha_signal s t L

/-! ## Performance report (`generate_performance_report`) -/

/-- Population variance `np.var`, i.e. `mean((x - mean x)^2)`
(0 on the empty list by junk division; `npStd` guards emptiness itself). -/
def popVar (l : List ℚ) : ℚ :=
  mean (l.map (fun x => (x - mean l)^2))

/-- `np.mean`: NaN (`none`) on an empty array. -/
noncomputable def npMean (l : List ℚ) : Option ℝ :=
  if l.isEmpty then none else some ((mean l : ℚ) : ℝ)

/-- `np.std` (population standard deviation): NaN (`none`) on an empty array. -/
noncomputable def npStd (l : List ℚ) : Option ℝ :=
  if l.isEmpty then none else some (Real.sqrt ((popVar l : ℚ) : ℝ))

/-- The Sharpe-like computation of `generate_performance_report`:
`np.mean(x) / np.std(x) if np.std(x) != 0 else 0`. In Python,
`np.std(x) != 0` is also `True` when `np.std(x)` is NaN (empty `x`), so
the guard condition is `x` empty or nonzero variance; on an empty `x` the
result is `nan / nan`, i.e. NaN (`none`). -/
noncomputable def sharpeOf (l : List ℚ) : Option ℝ :=
  if l.isEmpty ∨ popVar l ≠ 0 then
    match npMean l, npStd l with
    | some m, some sd => some (m / sd)
    | _, _ => none
  else some 0

/-- The broker state the report reads: the cash configured via
`cerebro.broker.set_cash(...)` and the final `cerebro.broker.getvalue()`. -/
structure Broker where
  startCash : ℚ
  value : ℚ

/-- The figures printed by `generate_performance_report`. `max_drawdown`
and `hit_ratio` are the fractions held in the Python variables; the
function prints them multiplied by 100. -/
structure PerfReport where
  total_returns : ℚ
  sharpe_ratio : Option ℝ
  sortino_ratio : Option ℝ
  max_drawdown : ℚ
  trade_frequency : ℕ
  hit_ratio : ℚ

/-- `generate_performance_report`: `initial_value = 1000000` is a hardcoded
constant; `daily_returns = trade_pnls / initial_value`; Sharpe and Sortino
via `sharpeOf` (Sortino on `daily_returns[daily_returns > 0]`);
`max_drawdown = max(1 - min(daily_returns) / max(daily_returns), 0)`,
where Python's builtin `min`/`max` raise `ValueError` on an empty
sequence (modelled as `Except.error`); hit ratio guarded by
`trade_count > 0`. -/
noncomputable def generate_performance_report (broker : Broker) (trade_pnls : List ℚ) :
    Except String PerfReport :=
  let initial_value : ℚ := 1000000
  let returns := (broker.value - initial_value) / initial_value * 100
  let daily_returns := trade_pnls.map (fun p => p / initial_value)
  let sharpe := sharpeOf daily_returns
  let sortino := sharpeOf (daily_returns.filter (fun x => decide (0 < x)))
  match daily_returns.min?, daily_returns.max? with
  | some mn, some mx =>
      Except.ok
        { total_returns := returns
          sharpe_ratio := sharpe
          sortino_ratio := sortino
          max_drawdown := max (1 - mn / mx) 0
          trade_frequency := trade_pnls.length
          hit_ratio :=
            if 0 < trade_pnls.length then
              ((trade_pnls.filter (fun p => decide (0 < p))).length : ℚ) / trade_pnls.length
            else 0 }
  | _, _ => Except.error "min() arg is an empty sequence"

/-! ## Data loading (`load_stock_data` and the loader loops) -/

/-- A loaded CSV, reduced to what the loading checks inspect: its column
names. Cell values are not modelled (`pd.to_datetime` conversion is
treated as total). -/
structure DataFrame where
  columns : List String

/-- `required_columns = ['open', 'high', 'low', 'close', 'volume']`. -/
def required_columns : List String :=
  ["open", "high", "low", "close", "volume"]

/-- `load_stock_data`: first choose a time column (`timestamp`, else
`date`, else raise `KeyError`), then check the required columns and raise
`KeyError` listing the missing ones. The two time branches differ only in
datetime parsing, which is not modelled. -/
def load_stock_data (df : DataFrame) : Except String DataFrame :=
  if df.columns.contains "timestamp" ∨ df.columns.contains "date" then
    let missing := required_columns.filter (fun c => !(df.columns.contains c))
    if missing.isEmpty then Except.ok df
    else Except.error "Missing required columns"
  else Except.error "No valid time column found in file"

/-- The per-source loops of `combine_datasets` and
`run_alpha3_backtest_portfolio`: try `load_stock_data` on each source; on
`KeyError`, report "Skipping file: reason" and continue with the remaining
sources. Returns the loaded frames and the skipped (source, reason) pairs. -/
def run_loader : List DataFrame → List DataFrame × List (DataFrame × String)
  | [] => ([], [])
  | df :: rest =>
      match load_stock_data df with
      | Except.ok d => (d :: (run_loader rest).1, (run_loader rest).2)
      | Except.error e => ((run_loader rest).1, (df, e) :: (run_loader rest).2)

/-! ## Shared lemmas -/

lemma dot_cons (x y : ℚ) (xs ys : List ℚ) : dot (x::xs) (y::ys) = x*y + dot xs ys := by
  simp [dot]

lemma dot_self_nonneg (xs : List ℚ) : 0 ≤ dot xs xs := by
  induction xs with
  | nil => exact le_refl 0
  | cons x xs ih => rw [dot_cons]; exact add_nonneg (mul_self_nonneg x) ih

lemma dot_eq_sum (xs ys : List ℚ) (h : xs.length = ys.length) :
    dot xs ys = ∑ i ∈ Finset.range xs.length, xs.getD i 0 * ys.getD i 0 := by
  induction xs generalizing ys with
  | nil => simp [dot]
  | cons x xs ih =>
      cases ys with
      | nil => simp at h
      | cons y ys =>
          rw [dot_cons, List.length_cons, Finset.sum_range_succ']
          simp only [List.getD_cons_succ, List.getD_cons_zero]
          rw [ih ys (by simpa using h)]
          ring

lemma dot_sq_le (xs ys : List ℚ) (h : xs.length = ys.length) :
    (dot xs ys)^2 ≤ dot xs xs * dot ys ys := by
  rw [dot_eq_sum xs ys h, dot_eq_sum xs xs rfl, dot_eq_sum ys ys rfl, ← h]
  have hcs := Finset.sum_mul_sq_le_sq_mul_sq (Finset.range xs.length)
    (fun i => xs.getD i 0) (fun i => ys.getD i 0)
  simpa [pow_two] using hcs

lemma codeWindow_eq_reverse_recent (l : List ℚ) (t L : ℕ) (hL : L ≤ t + 1) (ht : t < l.length) :
    codeWindow l t L = (recentWindow l t L).reverse := by
  apply List.ext_getElem
  · simp [codeWindow, recentWindow]
    omega
  · intro i h1 h2
    simp only [codeWindow, List.getElem_map, List.getElem_range, recentWindow,
      List.getElem_reverse, List.getElem_drop, List.getElem_take]
    simp only [codeWindow, List.length_map, List.length_range] at h1
    rw [List.getD_eq_getElem l 0 (show t - i < l.length by omega)]
    congr 1
    simp [recentWindow]
    omega

lemma length_recentWindow (l : List ℚ) (t L : ℕ) (hL : L ≤ t + 1) (ht : t < l.length) :
    (recentWindow l t L).length = L := by
  simp [recentWindow]
  omega

lemma sxy_self_nonneg (xs : List ℚ) : 0 ≤ sxy xs xs :=
  dot_self_nonneg _

lemma sxy_sq_le (xs ys : List ℚ) (h : xs.length = ys.length) :
    (sxy xs ys)^2 ≤ sxy xs xs * sxy ys ys :=
  dot_sq_le _ _ (by simp [demean, h])

lemma pearson_bounds (xs ys : List ℚ) (h : xs.length = ys.length)
    (hx : sxy xs xs ≠ 0) (hy : sxy ys ys ≠ 0) :
    -1 ≤ pearson xs ys ∧ pearson xs ys ≤ 1 := by
  have hx' : (0:ℚ) < sxy xs xs := lt_of_le_of_ne (sxy_self_nonneg xs) (Ne.symm hx)
  have hy' : (0:ℚ) < sxy ys ys := lt_of_le_of_ne (sxy_self_nonneg ys) (Ne.symm hy)
  have hd : (0:ℝ) < (sxy xs xs : ℝ) * (sxy ys ys : ℝ) :=
    mul_pos (by exact_mod_cast hx') (by exact_mod_cast hy')
  have hsq : ((sxy xs ys : ℝ))^2 ≤ (sxy xs xs : ℝ) * (sxy ys ys : ℝ) := by
    exact_mod_cast sxy_sq_le xs ys h
  have hspos : 0 < Real.sqrt ((sxy xs xs : ℝ) * (sxy ys ys : ℝ)) := Real.sqrt_pos.mpr hd
  have habs : |(sxy xs ys : ℝ)| ≤ Real.sqrt ((sxy xs xs : ℝ) * (sxy ys ys : ℝ)) := by
    rw [← Real.sqrt_sq_eq_abs]
    exact Real.sqrt_le_sqrt hsq
  have hone : |pearson xs ys| ≤ 1 := by
    rw [pearson, abs_div, abs_of_pos hspos]
    exact (div_le_one hspos).mpr habs
  exact abs_le.mp hone

lemma rankAvg_reverse (l : List ℚ) (x : ℚ) : rankAvg l.reverse x = rankAvg l x := by
  simp [rankAvg, List.countP_reverse]

lemma ranks_reverse (l : List ℚ) : ranks l.reverse = (ranks l).reverse := by
  unfold ranks
  rw [show rankAvg l.reverse = rankAvg l from funext (rankAvg_reverse l), List.map_reverse]

lemma mean_reverse (l : List ℚ) : mean l.reverse = mean l := by
  simp [mean, List.sum_reverse]

lemma demean_reverse (l : List ℚ) : demean l.reverse = (demean l).reverse := by
  unfold demean
  rw [mean_reverse, List.map_reverse]

lemma zip_reverse (xs ys : List ℚ) (h : xs.length = ys.length) :
    xs.reverse.zip ys.reverse = (xs.zip ys).reverse := by
  induction xs generalizing ys with
  | nil =>
      cases ys with
      | nil => simp
      | cons y ys => simp at h
  | cons x xs ih =>
      cases ys with
      | nil => simp at h
      | cons y ys =>
          simp only [List.reverse_cons, List.zip_cons_cons]
          rw [List.zip_append (by simpa using h), ih ys (by simpa using h)]
          simp

lemma dot_reverse (xs ys : List ℚ) (h : xs.length = ys.length) :
    dot xs.reverse ys.reverse = dot xs ys := by
  unfold dot
  rw [zip_reverse xs ys h, List.map_reverse, List.sum_reverse]

lemma sxy_reverse (xs ys : List ℚ) (h : xs.length = ys.length) :
    sxy xs.reverse ys.reverse = sxy xs ys := by
  unfold sxy
  rw [demean_reverse, demean_reverse, dot_reverse _ _ (by simp [demean, h])]

lemma signalOnWindow_reverse (os vs : List ℚ) (h : os.length = vs.length) :
    signalOnWindow os.reverse vs.reverse = signalOnWindow os vs := by
  have hlen : (ranks os).length = (ranks vs).length := by simp [ranks, h]
  unfold signalOnWindow seriesCorr pearson
  rw [ranks_reverse, ranks_reverse,
    sxy_reverse _ _ hlen, sxy_reverse _ _ rfl, sxy_reverse _ _ rfl]

lemma signalOnWindow_bound (os vs : List ℚ) (h : os.length = vs.length) :
    signalOnWindow os vs = none ∨
      ∃ x, signalOnWindow os vs = some x ∧ -1 ≤ x ∧ x ≤ 1 := by
  unfold signalOnWindow seriesCorr
  by_cases hz : sxy (ranks os) (ranks os) = 0 ∨ sxy (ranks vs) (ranks vs) = 0
  · left
    rw [if_pos hz]
    rfl
  · right
    push_neg at hz
    have hb := pearson_bounds (ranks os) (ranks vs) (by simp [ranks, h]) hz.1 hz.2
    refine ⟨-1 * pearson (ranks os) (ranks vs), ?_, by linarith [hb.2], by linarith [hb.1]⟩
    rw [if_neg (by push_neg; exact hz)]
    rfl

lemma mean_of_const (c : ℚ) (l : List ℚ) (hc : ∀ x ∈ l, x = c) (hne : l ≠ []) :
    mean l = c := by
  have hlen : (l.length : ℚ) ≠ 0 := by
    simp [List.length_eq_zero]
    exact hne
  rw [mean, List.sum_eq_card_nsmul l c hc, nsmul_eq_mul]
  exact mul_div_cancel_left₀ c hlen

lemma sxy_self_eq_zero_of_const (l : List ℚ) (h : ∀ a ∈ l, ∀ b ∈ l, a = b) :
    sxy l l = 0 := by
  apply List.sum_eq_zero
  intro z hz
  obtain ⟨q, hq, rfl⟩ := List.mem_map.mp hz
  have h1 : q.1 ∈ demean l := (List.of_mem_zip hq).1
  obtain ⟨a, ha, hqa⟩ := List.mem_map.mp h1
  rw [← hqa]
  rcases l with - | ⟨c, l'⟩
  · cases ha
  · have hc : ∀ x ∈ c :: l', x = c := fun x hx => h x hx c (List.mem_cons_self c l')
    rw [mean_of_const c _ hc (by simp), hc a ha]
    simp

lemma ranks_const_of_const (l : List ℚ) (h : ∀ a ∈ l, ∀ b ∈ l, a = b) :
    ∀ u ∈ ranks l, ∀ v ∈ ranks l, u = v := by
  intro u hu v hv
  obtain ⟨a, ha, rfl⟩ := List.mem_map.mp hu
  obtain ⟨b, hb, rfl⟩ := List.mem_map.mp hv
  rw [h a ha b hb]

lemma nextAction_eq_buy {sig : Option ℝ} {p : PosState} :
    nextAction sig p = TradeAction.buy ↔
      (∃ x, sig = some x ∧ x < -(1/2)) ∧ p = PosState.flat := by
  cases sig with
  | none => simp [nextAction]
  | some x =>
      have hred : nextAction (some x) p =
          if x < -(1/2) ∧ p = PosState.flat then TradeAction.buy
          else if 1/2 < x ∧ p = PosState.long then TradeAction.sell
          else TradeAction.hold := rfl
      rw [hred]
      split_ifs with h1 h2
      · simp only [true_iff]
        exact ⟨⟨x, rfl, h1.1⟩, h1.2⟩
      · constructor
        · intro hc; cases hc
        · rintro ⟨⟨x', hx', hlt⟩, hp⟩
          injection hx' with hx'
          subst hx'
          exact absurd ⟨hlt, hp⟩ h1
      · constructor
        · intro hc; cases hc
        · rintro ⟨⟨x', hx', hlt⟩, hp⟩
          injection hx' with hx'
          subst hx'
          exact absurd ⟨hlt, hp⟩ h1

lemma nextAction_eq_sell {sig : Option ℝ} {p : PosState} :
    nextAction sig p = TradeAction.sell ↔
      (∃ x, sig = some x ∧ 1/2 < x) ∧ p = PosState.long := by
  cases sig with
  | none => simp [nextAction]
  | some x =>
      have hred : nextAction (some x) p =
          if x < -(1/2) ∧ p = PosState.flat then TradeAction.buy
          else if 1/2 < x ∧ p = PosState.long then TradeAction.sell
          else TradeAction.hold := rfl
      rw [hred]
      split_ifs with h1 h2
      · constructor
        · intro hc; cases hc
        · rintro ⟨⟨x', hx', hlt⟩, hp⟩
          injection hx' with hx'
          subst hx'
          rw [hp] at h1
          exact absurd h1.2 (by decide)
      · simp only [true_iff]
        exact ⟨⟨x, rfl, h2.1⟩, h2.2⟩
      · constructor
        · intro hc; cases hc
        · rintro ⟨⟨x', hx', hlt⟩, hp⟩
          injection hx' with hx'
          subst hx'
          exact absurd ⟨hlt, hp⟩ h2

lemma stepPos_of_hold {sig : Option ℝ} {p : PosState}
    (h : nextAction sig p = TradeAction.hold) : stepPos sig p = p := by
  unfold stepPos
  rw [h]

lemma stepPos_of_buy {sig : Option ℝ} {p : PosState}
    (h : nextAction sig p = TradeAction.buy) : stepPos sig p = PosState.long := by
  unfold stepPos
  rw [h]

lemma stepPos_of_sell {sig : Option ℝ} {p : PosState}
    (h : nextAction sig p = TradeAction.sell) : stepPos sig p = PosState.flat := by
  unfold stepPos
  rw [h]

lemma runPos_stay_long (sigs : ℕ → Option ℝ) (a : ℕ) :
    ∀ b, a ≤ b → runPos sigs a = PosState.long →
      (∀ k, a ≤ k → k < b → runAct sigs k ≠ TradeAction.sell) →
      runPos sigs b = PosState.long := by
  intro b
  induction b with
  | zero =>
      intro hab ha _
      have h0 : a = 0 := Nat.le_zero.mp hab
      subst h0
      exact ha
  | succ b ih =>
      intro hab ha hns
      rcases Nat.eq_or_lt_of_le hab with heq | hlt
      · rw [← heq]; exact ha
      · have hab' : a ≤ b := Nat.lt_succ_iff.mp hlt
        have hb : runPos sigs b = PosState.long :=
          ih hab' ha (fun k hk1 hk2 => hns k hk1 (Nat.lt_succ_of_lt hk2))
        have hnotsell : runAct sigs b ≠ TradeAction.sell := hns b hab' (Nat.lt_succ_self b)
        show stepPos (sigs b) (runPos sigs b) = PosState.long
        cases hact : nextAction (sigs b) (runPos sigs b) with
        | buy =>
            have hf := (nextAction_eq_buy.mp hact).2
            rw [hb] at hf
            cases hf
        | sell => exact absurd hact hnotsell
        | hold => rw [stepPos_of_hold hact, hb]

lemma sharpeOf_of_var_ne (l : List ℚ) (hv : popVar l ≠ 0) :
    sharpeOf l = some ((mean l : ℝ) / Real.sqrt ((popVar l : ℚ) : ℝ)) := by
  have hne : ¬ l.isEmpty := by
    intro he
    rw [List.isEmpty_iff] at he
    rw [he] at hv
    exact hv (by simp [popVar, mean])
  unfold sharpeOf
  rw [if_pos (Or.inr hv)]
  unfold npMean npStd
  rw [if_neg hne, if_neg hne]

lemma sharpeOf_of_var_zero (l : List ℚ) (hne : l ≠ []) (hv : popVar l = 0) :
    sharpeOf l = some 0 := by
  unfold sharpeOf
  rw [if_neg]
  push_neg
  exact ⟨by simpa [List.isEmpty_iff] using hne, hv⟩

lemma generate_report_nonempty (b : Broker) (pnls : List ℚ) (hne : pnls ≠ []) :
    ∃ r mn mx, generate_performance_report b pnls = Except.ok r ∧
      (pnls.map (fun p => p / 1000000)).min? = some mn ∧
      (pnls.map (fun p => p / 1000000)).max? = some mx ∧
      r.max_drawdown * 100 = max (1 - mn / mx) 0 * 100 := by
  have hmapne : pnls.map (fun p => p / 1000000) ≠ [] := by
    simpa [List.map_eq_nil_iff] using hne
  cases hmin : (pnls.map (fun p => p / 1000000)).min? with
  | none => exact absurd (List.min?_eq_none_iff.mp hmin) hmapne
  | some mn =>
      cases hmax : (pnls.map (fun p => p / 1000000)).max? with
      | none => exact absurd (List.max?_eq_none_iff.mp hmax) hmapne
      | some mx =>
          have hgen : generate_performance_report b pnls = Except.ok
              { total_returns := (b.value - 1000000) / 1000000 * 100
                sharpe_ratio := sharpeOf (pnls.map (fun p => p / 1000000))
                sortino_ratio := sharpeOf ((pnls.map (fun p => p / 1000000)).filter
                  (fun x => decide (0 < x)))
                max_drawdown := max (1 - mn / mx) 0
                trade_frequency := pnls.length
                hit_ratio :=
                  if 0 < pnls.length then
                    ((pnls.filter (fun p => decide (0 < p))).length : ℚ) / pnls.length
                  else 0 } := by
            unfold generate_performance_report
            dsimp only
            rw [hmin, hmax]
          exact ⟨_, mn, mx, hgen, rfl, rfl, rfl⟩

/-! ## Claim theorems -/

/-- Claim C1: for every instrument series and every bar index with at
least `L` bars of history (including the current bar), the alpha signal of
`Alpha3Strategy.next` equals the negated Pearson correlation of the
average-rank-tied ranks of the most recent `L` open values and the most
recent `L` volume values (window ending at and including the current bar,
as `specAlphaSignal` states it), and its value lies in `[-1, 1]` or is
NaN (`none`). -/
theorem alpha_signal_spec_and_bounded (s : InstrumentSeries) (t L : ℕ)
    (hL : L ≤ t + 1) (ho : t < s.opens.length) (hv : t < s.volumes.length) :
    alpha_signal s t L = specAlphaSignal s t L ∧
    (alpha_signal s t L = none ∨
      ∃ x, alpha_signal s t L = some x ∧ -1 ≤ x ∧ x ≤ 1) := by
  constructor
  · unfold alpha_signal specAlphaSignal
    rw [codeWindow_eq_reverse_recent s.opens t L hL ho,
      codeWindow_eq_reverse_recent s.volumes t L hL hv,
      signalOnWindow_reverse _ _
        (by rw [length_recentWindow s.opens t L hL ho, length_recentWindow s.volumes t L hL hv])]
  · exact signalOnWindow_bound _ _ (by simp [codeWindow])

/-- Witness for C1 at a concrete series, bar index and lookback. -/
theorem alpha_signal_spec_and_bounded_witness :
    alpha_signal ⟨[1, 2, 3], [3, 2, 1]⟩ 2 3 = specAlphaSignal ⟨[1, 2, 3], [3, 2, 1]⟩ 2 3 ∧
    (alpha_signal ⟨[1, 2, 3], [3, 2, 1]⟩ 2 3 = none ∨
      ∃ x, alpha_signal ⟨[1, 2, 3], [3, 2, 1]⟩ 2 3 = some x ∧ -1 ≤ x ∧ x ≤ 1) :=
  alpha_signal_spec_and_bounded ⟨[1, 2, 3], [3, 2, 1]⟩ 2 3 (by decide) (by decide) (by decide)

/-- Claim C2: the state machine emits BUY exactly when the signal is
strictly below -0.5 and the position is FLAT, emits SELL exactly when the
signal is strictly above 0.5 and the position is LONG, and in every other
case (including a NaN signal and any signal strictly between -0.5 and
0.5) emits HOLD and leaves the position unchanged. -/
theorem state_machine_characterization (sig : Option ℝ) (p : PosState) :
    (nextAction sig p = TradeAction.buy ↔
      (∃ x, sig = some x ∧ x < -(1/2)) ∧ p = PosState.flat) ∧
    (nextAction sig p = TradeAction.sell ↔
      (∃ x, sig = some x ∧ 1/2 < x) ∧ p = PosState.long) ∧
    (nextAction sig p ≠ TradeAction.buy → nextAction sig p ≠ TradeAction.sell →
      nextAction sig p = TradeAction.hold ∧ stepPos sig p = p) ∧
    (sig = none → nextAction sig p = TradeAction.hold) ∧
    (∀ x, sig = some x → -(1/2) < x → x < 1/2 → nextAction sig p = TradeAction.hold) := by
  refine ⟨nextAction_eq_buy, nextAction_eq_sell, ?_, ?_, ?_⟩
  · intro hnb hns
    cases hact : nextAction sig p with
    | buy => exact absurd hact hnb
    | sell => exact absurd hact hns
    | hold => exact ⟨rfl, stepPos_of_hold hact⟩
  · rintro rfl
    rfl
  · rintro x rfl hlo hhi
    cases hact : nextAction (some x) p with
    | buy =>
        obtain ⟨⟨x', hx', hlt⟩, -⟩ := nextAction_eq_buy.mp hact
        injection hx' with hx'
        subst hx'
        linarith
    | sell =>
        obtain ⟨⟨x', hx', hlt⟩, -⟩ := nextAction_eq_sell.mp hact
        injection hx' with hx'
        subst hx'
        linarith
    | hold => rfl

/-- Witness for C2: a strong signal of -1 on a flat position emits BUY. -/
theorem state_machine_characterization_witness :
    nextAction (some (-1)) PosState.flat = TradeAction.buy :=
  (state_machine_characterization (some (-1)) PosState.flat).1.mpr
    ⟨⟨-1, rfl, by norm_num⟩, rfl⟩

/-- Claim C3 (code bug): with zero closed trades the report is NOT
produced: Python's builtin `min` raises `ValueError` on the empty
`daily_returns`, and the Sharpe computation before it yields NaN
(`none`), not 0, because `np.std([]) != 0` is `True` for the NaN standard
deviation of an empty sample. -/
theorem report_zero_trades_raises (b : Broker) :
    generate_performance_report b [] = Except.error "min() arg is an empty sequence" ∧
    sharpeOf [] = none := by
  constructor
  · rfl
  · rfl

/-- Claim C4 (engine dispatch modelled from the spec): with fewer than `L`
bars of history (including the current bar) there is no signal and no
buy/sell action, and nothing fails. -/
theorem insufficient_history_no_action (s : InstrumentSeries) (t L : ℕ) (p : PosState)
    (h : t + 1 < L) :
    engineSignal s t L = none ∧
    nextAction (engineSignal s t L) p = TradeAction.hold ∧
    stepPos (engineSignal s t L) p = p := by
  have hs : engineSignal s t L = none := by
    unfold engineSignal
    rw [if_pos h]
  refine ⟨hs, ?_, ?_⟩
  · rw [hs]
    rfl
  · rw [hs]
    rfl

/-- Witness for C4 on the first bar of a one-bar series with a 10-bar
lookback. -/
theorem insufficient_history_no_action_witness :
    engineSignal ⟨[1], [1]⟩ 0 10 = none ∧
    nextAction (engineSignal ⟨[1], [1]⟩ 0 10) PosState.flat = TradeAction.hold ∧
    stepPos (engineSignal ⟨[1], [1]⟩ 0 10) PosState.flat = PosState.flat :=
  insufficient_history_no_action ⟨[1], [1]⟩ 0 10 PosState.flat (by norm_num)

/-- Claim C5: when the open values in the lookback window are all
identical, or the volume values are, the signal is NaN (`none`) and the
bar takes no buy or sell action (the position is unchanged); the
computation is total, it does not crash. -/
theorem zero_variance_signal_nan (s : InstrumentSeries) (t L : ℕ) (p : PosState)
    (h : (∀ a ∈ codeWindow s.opens t L, ∀ b ∈ codeWindow s.opens t L, a = b) ∨
      (∀ a ∈ codeWindow s.volumes t L, ∀ b ∈ codeWindow s.volumes t L, a = b)) :
    alpha_signal s t L = none ∧
    nextAction (alpha_signal s t L) p = TradeAction.hold ∧
    stepPos (alpha_signal s t L) p = p := by
  have hz : sxy (ranks (codeWindow s.opens t L)) (ranks (codeWindow s.opens t L)) = 0 ∨
      sxy (ranks (codeWindow s.volumes t L)) (ranks (codeWindow s.volumes t L)) = 0 :=
    h.imp (fun hh => sxy_self_eq_zero_of_const _ (ranks_const_of_const _ hh))
      (fun hh => sxy_self_eq_zero_of_const _ (ranks_const_of_const _ hh))
  have hsig : alpha_signal s t L = none := by
    unfold alpha_signal signalOnWindow seriesCorr
    rw [if_pos hz]
    rfl
  refine ⟨hsig, ?_, ?_⟩
  · rw [hsig]
    rfl
  · rw [hsig]
    rfl

/-- Witness for C5: constant opens over a full 3-bar window. -/
theorem zero_variance_signal_nan_witness :
    alpha_signal ⟨[5, 5, 5], [1, 2, 3]⟩ 2 3 = none ∧
    nextAction (alpha_signal ⟨[5, 5, 5], [1, 2, 3]⟩ 2 3) PosState.long = TradeAction.hold ∧
    stepPos (alpha_signal ⟨[5, 5, 5], [1, 2, 3]⟩ 2 3) PosState.long = PosState.long :=
  zero_variance_signal_nan ⟨[5, 5, 5], [1, 2, 3]⟩ 2 3 PosState.long (Or.inl (by decide))

/-- Claim C6: in every reachable simulation state the position is FLAT or
LONG (never short), a SELL is only ever emitted from a LONG position, and
two BUY emissions always have an intervening SELL (so at most one trade
is open at any time). -/
theorem no_double_buy_invariant (sigs : ℕ → Option ℝ) :
    (∀ t, runPos sigs t = PosState.flat ∨ runPos sigs t = PosState.long) ∧
    (∀ t, runAct sigs t = TradeAction.sell → runPos sigs t = PosState.long) ∧
    (∀ i j, i < j → runAct sigs i = TradeAction.buy → runAct sigs j = TradeAction.buy →
      ∃ k, i < k ∧ k < j ∧ runAct sigs k = TradeAction.sell) := by
  refine ⟨?_, ?_, ?_⟩
  · intro t
    cases runPos sigs t
    · exact Or.inl rfl
    · exact Or.inr rfl
  · intro t h
    exact (nextAction_eq_sell.mp h).2
  · intro i j hij hbi hbj
    by_contra hno
    push_neg at hno
    have h1 : runPos sigs (i + 1) = PosState.long := stepPos_of_buy hbi
    have h2 : runPos sigs j = PosState.long :=
      runPos_stay_long sigs (i + 1) j hij h1
        (fun k hk1 hk2 => hno k (Nat.lt_of_succ_le hk1) hk2)
    have h3 : runPos sigs j = PosState.flat := (nextAction_eq_buy.mp hbj).2
    rw [h2] at h3
    cases h3

/-- Witness for C6: on the concrete stream `exSigs` the two BUYs at bars 0
and 2 have an intervening SELL. -/
theorem no_double_buy_invariant_witness :
    ∃ k, 0 < k ∧ k < 2 ∧ runAct exSigs k = TradeAction.sell := by
  have h0 : runAct exSigs 0 = TradeAction.buy :=
    nextAction_eq_buy.mpr ⟨⟨-1, rfl, by norm_num⟩, rfl⟩
  have hp1 : runPos exSigs 1 = PosState.long := stepPos_of_buy h0
  have h1 : runAct exSigs 1 = TradeAction.sell := by
    unfold runAct
    rw [hp1]
    exact nextAction_eq_sell.mpr ⟨⟨1, rfl, by norm_num⟩, rfl⟩
  have hp2 : runPos exSigs 2 = PosState.flat := stepPos_of_sell h1
  have h2 : runAct exSigs 2 = TradeAction.buy := by
    unfold runAct
    rw [hp2]
    exact nextAction_eq_buy.mpr ⟨⟨-1, rfl, by norm_num⟩, rfl⟩
  exact (no_double_buy_invariant exSigs).2.2 0 2 (by norm_num) h0 h2

/-- Claim C7, counterexample: on an empty sample the Sharpe-like ratio is
NaN (`none`), not 0, because the `np.std(x) != 0` guard is `True` when
the standard deviation is NaN. -/
theorem sharpe_empty_not_zero :
    sharpeOf [] ≠ some 0 := by
  intro h
  cases h

/-- Claim C7 as amended: for a non-empty sample with nonzero variance the
Sharpe-like ratio is `mean/std`; for a non-empty sample with zero
variance it is 0; for an empty sample it is NaN (`none`), not 0. The
Sortino-like ratio is the same computation on the strictly positive
subsample, and in particular is NaN (`none`), not 0, when that subsample
is empty. -/
theorem sharpe_sortino_characterization (sample : List ℚ) :
    (sample = [] → sharpeOf sample = none) ∧
    (sample ≠ [] → popVar sample = 0 → sharpeOf sample = some 0) ∧
    (popVar sample ≠ 0 →
      sharpeOf sample = some ((mean sample : ℝ) / Real.sqrt ((popVar sample : ℚ) : ℝ))) ∧
    (sample.filter (fun x => decide (0 < x)) = [] →
      sharpeOf (sample.filter (fun x => decide (0 < x))) = none) ∧
    (sample.filter (fun x => decide (0 < x)) ≠ [] →
      popVar (sample.filter (fun x => decide (0 < x))) = 0 →
      sharpeOf (sample.filter (fun x => decide (0 < x))) = some 0) ∧
    (popVar (sample.filter (fun x => decide (0 < x))) ≠ 0 →
      sharpeOf (sample.filter (fun x => decide (0 < x))) =
        some ((mean (sample.filter (fun x => decide (0 < x))) : ℝ) /
          Real.sqrt ((popVar (sample.filter (fun x => decide (0 < x))) : ℚ) : ℝ))) := by
  refine ⟨?_, sharpeOf_of_var_zero sample, sharpeOf_of_var_ne sample, ?_,
    sharpeOf_of_var_zero _, sharpeOf_of_var_ne _⟩
  · rintro rfl
    rfl
  · intro h
    rw [h]
    rfl

/-- Witness for C7 on the two-element sample `[1, 2]`. -/
theorem sharpe_sortino_characterization_witness :
    sharpeOf [1, 2] = some ((mean [1, 2] : ℝ) / Real.sqrt ((popVar [1, 2] : ℚ) : ℝ)) :=
  (sharpe_sortino_characterization [1, 2]).2.2.1 (by norm_num [popVar, mean])

/-- Claim C8: for every non-empty P&L list the reported maximum drawdown
percentage is `max(1 - min(sample)/max(sample), 0) * 100` over the
per-trade normalized sample, and on the sample from P&L list
`[-2000000, 1000000]` the value is 300%, which exceeds 100%. -/
theorem max_drawdown_formula :
    (∀ (b : Broker) (pnls : List ℚ), pnls ≠ [] →
      ∃ r mn mx, generate_performance_report b pnls = Except.ok r ∧
        (pnls.map (fun p => p / 1000000)).min? = some mn ∧
        (pnls.map (fun p => p / 1000000)).max? = some mx ∧
        r.max_drawdown * 100 = max (1 - mn / mx) 0 * 100) ∧
    (∃ r, generate_performance_report ⟨1000000, 1000000⟩ [-2000000, 1000000] = Except.ok r ∧
      r.max_drawdown * 100 = 300 ∧ (100 : ℚ) < r.max_drawdown * 100) := by
  constructor
  · exact generate_report_nonempty
  · obtain ⟨r, mn, mx, hgen, hmin, hmax, hdd⟩ :=
      generate_report_nonempty ⟨1000000, 1000000⟩ [-2000000, 1000000] (by simp)
    have hd : (([-2000000, 1000000] : List ℚ).map (fun p => p / 1000000)) = [-2, 1] := by
      norm_num
    rw [hd] at hmin hmax
    have hmn : mn = -2 := by
      have hv : (([-2, 1] : List ℚ)).min? = some (-2) := by decide
      rw [hv] at hmin
      exact (Option.some_inj.mp hmin).symm
    have hmx : mx = 1 := by
      have hv : (([-2, 1] : List ℚ)).max? = some 1 := by decide
      rw [hv] at hmax
      exact (Option.some_inj.mp hmax).symm
    subst hmn hmx
    refine ⟨r, hgen, ?_, ?_⟩
    · rw [hdd]
      norm_num
    · rw [hdd]
      norm_num

/-- Witness for C8 on the one-trade P&L list `[5]`. -/
theorem max_drawdown_formula_witness :
    ∃ r mn mx, generate_performance_report ⟨1000000, 1500000⟩ [5] = Except.ok r ∧
      (([5] : List ℚ).map (fun p => p / 1000000)).min? = some mn ∧
      (([5] : List ℚ).map (fun p => p / 1000000)).max? = some mx ∧
      r.max_drawdown * 100 = max (1 - mn / mx) 0 * 100 :=
  max_drawdown_formula.1 ⟨1000000, 1500000⟩ [5] (by simp)

/-- Claim C9: `load_stock_data` fails exactly when a required column among
open, high, low, close, volume is absent or when neither a timestamp nor
a date column exists; the loading loop keeps every source that loads,
records every failing source together with its reason, and never aborts
(it is a total function over the whole source list). -/
theorem load_failure_characterization :
    (∀ df : DataFrame,
      (∃ e, load_stock_data df = Except.error e) ↔
        ((∃ c ∈ required_columns, ¬ df.columns.contains c) ∨
         (¬ df.columns.contains "timestamp" ∧ ¬ df.columns.contains "date"))) ∧
    (∀ dfs : List DataFrame,
      (run_loader dfs).1 = dfs.filterMap (fun df => (load_stock_data df).toOption) ∧
      (run_loader dfs).2 = dfs.filterMap (fun df =>
        match load_stock_data df with
        | Except.error e => some (df, e)
        | Except.ok _ => none)) := by
  constructor
  · intro df
    unfold load_stock_data
    by_cases htime : (df.columns.contains "timestamp" ∨ df.columns.contains "date" : Prop)
    · rw [if_pos htime]
      dsimp only
      by_cases hmiss : (required_columns.filter (fun c => !(df.columns.contains c))).isEmpty
      · rw [if_pos hmiss]
        simp only [List.isEmpty_iff, List.filter_eq_nil_iff] at hmiss
        constructor
        · rintro ⟨e, he⟩
          cases he
        · rintro (⟨c, hc, hnc⟩ | ⟨h1, h2⟩)
          · exact absurd (by simpa using hmiss c hc) hnc
          · rcases htime with ht | ht
            · exact absurd ht h1
            · exact absurd ht h2
      · rw [if_neg hmiss]
        simp only [List.isEmpty_iff] at hmiss
        constructor
        · intro _
          left
          obtain ⟨c, hc⟩ := List.exists_mem_of_ne_nil _ hmiss
          have hf := List.of_mem_filter hc
          exact ⟨c, List.mem_of_mem_filter hc, by simpa using hf⟩
        · intro _
          exact ⟨_, rfl⟩
    · rw [if_neg htime]
      push_neg at htime
      constructor
      · intro _
        right
        exact ⟨by simpa using htime.1, by simpa using htime.2⟩
      · intro _
        exact ⟨_, rfl⟩
  · intro dfs
    induction dfs with
    | nil => exact ⟨rfl, rfl⟩
    | cons df rest ih =>
        cases hl : load_stock_data df with
        | ok d =>
            constructor
            · show (run_loader (df :: rest)).1 = _
              simp only [run_loader, hl, List.filterMap_cons, Except.toOption, ih.1]
            · show (run_loader (df :: rest)).2 = _
              simp only [run_loader, hl, List.filterMap_cons, ih.2]
        | error e =>
            constructor
            · show (run_loader (df :: rest)).1 = _
              simp only [run_loader, hl, List.filterMap_cons, Except.toOption, ih.1]
            · show (run_loader (df :: rest)).2 = _
              simp only [run_loader, hl, List.filterMap_cons, ih.2]

/-- Witness for C9: a source with a time column but no `open` column fails
to load. -/
theorem load_failure_characterization_witness :
    ∃ e, load_stock_data ⟨["timestamp", "high", "low", "close", "volume"]⟩ =
      Except.error e :=
  (load_failure_characterization.1 ⟨["timestamp", "high", "low", "close", "volume"]⟩).mpr
    (Or.inl ⟨"open", by decide, by decide⟩)

/-- Claim C10: the report uses the hardcoded constant 1,000,000 as the
initial value, not the configured broker cash: two brokers with the same
final value and the same P&L list produce identical reports regardless of
their configured starting cash, and the reported total return is always
relative to 1,000,000. -/
theorem report_ignores_configured_cash :
    (∀ (b1 b2 : Broker) (pnls : List ℚ), b1.value = b2.value →
      generate_performance_report b1 pnls = generate_performance_report b2 pnls) ∧
    (∀ (b : Broker) (pnls : List ℚ) (r : PerfReport),
      generate_performance_report b pnls = Except.ok r →
      r.total_returns = (b.value - 1000000) / 1000000 * 100) := by
  constructor
  · intro b1 b2 pnls h
    unfold generate_performance_report
    rw [h]
  · intro b pnls r h
    unfold generate_performance_report at h
    dsimp only at h
    split at h
    · injection h with h
      rw [← h]
    · cases h

/-- Witness for C10: two brokers with different configured cash but the
same final value yield the same report. -/
theorem report_ignores_configured_cash_witness :
    generate_performance_report ⟨500000, 1200000⟩ [1000] =
      generate_performance_report ⟨2000000, 1200000⟩ [1000] :=
  report_ignores_configured_cash.1 ⟨500000, 1200000⟩ ⟨2000000, 1200000⟩ [1000] rfl
